import Mathlib

/-!
Shallow embedding of the weighted spatial aggregation engine of
`gridmetetl` (files `gridmetetl/etl.py` and `gridmetetl/helper.py`).

Cell values coming from the climate grid are IEEE doubles that may be NaN
(cells outside CONUS).  We model such a value as `Option ℚ`, with `none`
standing for NaN; every arithmetic operation propagates `none` the way IEEE
arithmetic propagates NaN.  Weights and aggregated results are rationals.
-/

/-- A grid cell value: `none` models an IEEE NaN, `some q` a finite double. -/
abbrev Val := Option ℚ

/-- `netCDF4.default_fillvals['f8']`, the canonical fill value
9.969209968386869e+36 used by `getaverage` and `np_get_wval`. -/
def fillF8 : ℚ := 9969209968386869 * 10 ^ 21

/-- NaN-propagating sum, as in `numpy.sum` over an array that may contain
NaN: if any addend is NaN the sum is NaN. -/
def nansum : List Val → Val
  | [] => some 0
  | x :: xs => Option.bind x fun a => (nansum xs).map fun b => a + b

/-- Elementwise product `data * weights` as computed inside
`numpy.average`; a NaN value times any weight is NaN. -/
def wprods (data : List Val) (wghts : List ℚ) : List Val :=
  (data.zip wghts).map fun p => p.1.map fun v => v * p.2

/-- The local `getaverage` of `etl.py` lines 299-304 (same code as
`helper.getaverage`): `numpy.average(data, weights=wghts)` with
`ZeroDivisionError` (raised by numpy exactly when the weight total is zero)
caught and replaced by the f8 fill value.  `numpy.average` itself computes
`(data * wghts).sum() / wghts.sum()`, so NaN values are NOT masked: a NaN
cell value propagates into the result. -/
def getaverage (data : List Val) (wghts : List ℚ) : Val :=
  if wghts.sum = 0 then some fillF8
  else (nansum (wprods data wghts)).map fun s => s / wghts.sum

/-- The (value, weight) pairs that survive the NaN mask built by
`np_get_wval` (`helper.py` line 33): `np.ma.masked_array(ndata, np.isnan(ndata))`
together with `wgt = wgt*(~mask)` inside `np.ma.average` keeps exactly the
pairs whose data value is not NaN. -/
def maskedPairs (ndata : List Val) (wghts : List ℚ) : List (ℚ × ℚ) :=
  (ndata.zip wghts).filterMap fun p => p.1.map fun v => (v, p.2)

/-- `helper.np_get_wval` (`helper.py` lines 18-41): masked weighted average.
`np.ma.average` sums values and weights over the unmasked entries only; the
result is `masked` (and the function returns the f8 fill value) exactly when
every entry is masked or the unmasked weight total is zero, both of which
are captured by the unmasked weight total being zero in the all-masked case
and by the masked division domain otherwise. -/
def np_get_wval (ndata : List Val) (wghts : List ℚ) : ℚ :=
  if ((maskedPairs ndata wghts).map Prod.snd).sum = 0 then fillF8
  else ((maskedPairs ndata wghts).map fun p => p.1 * p.2).sum /
    ((maskedPairs ndata wghts).map Prod.snd).sum

/-- One row of the weights file as consumed by `run_weights`: the id column
(`wghts_id`, column 1, matched against `gdf.hru_id_nat`), the `grid_ids`
column and the `w` column. -/
structure WRow where
  hru_id : ℤ
  grid_id : ℕ
  w : ℚ
deriving DecidableEq, Repr

/-- `self.unique_hru_ids.get_group(k)` (`etl.py` lines 284 and 339): the rows
of the weights file whose id column equals `k`, in file order; pandas raises
`KeyError` (modeled by `none`) when no row has that id. -/
def get_group (rows : List WRow) (k : ℤ) : Option (List WRow) :=
  let g := rows.filter fun r => r.hru_id == k
  if g.isEmpty then none else some g

/-- The grouping produced by `wght_uofi.groupby(self.wghts_id)` (`etl.py`
line 284): every distinct id of the file mapped to its rows in file order. -/
def buildGroups (rows : List WRow) : List (ℤ × List WRow) :=
  ((rows.map WRow.hru_id).dedup).map fun k => (k, rows.filter fun r => r.hru_id == k)

/-- Error vocabulary of the weight-table build described by the spec.  The
code of `run_weights` (`etl.py` lines 279-284) is `pd.read_csv` followed by
`groupby` and performs no validation of weights or cell indices, so the
embedded build below never produces this error. -/
inductive WeightsError
  | MalformedWeightsError
deriving DecidableEq

/-- The weight-table build of `run_weights` (`etl.py` lines 279-284) applied
to the parsed rows: it groups the rows by the id column and has no failure
path for negative weights or malformed rows. -/
def run_weights_read (rows : List WRow) : Except WeightsError (List (ℤ × List WRow)) :=
  Except.ok (buildGroups rows)

/-- The seven climate variables handled by `run_weights`. -/
inductive GMVar
  | tmax
  | tmin
  | ppt
  | rhmax
  | rhmin
  | ws
  | srad
deriving DecidableEq, Repr

/-- Numpy fancy indexing `d_flt[tgid]` (`etl.py` lines 344-356): gather the
slice values at the listed flat indices; an out-of-range index raises
`IndexError` (modeled by `none`). -/
def gather (d_flt : List Val) (tgid : List ℕ) : Option (List Val) :=
  if tgid.all fun g => decide (g < d_flt.length) then
    some (tgid.map fun g => d_flt.getD g none)
  else none

/-- The per-hru, per-variable computation of the inner loop (`etl.py` lines
343-356): for `tmax` and `tmin` the literal offset 273.5 is subtracted from
the gathered values before `getaverage`; the other five variables are
averaged raw.  `none` models the `IndexError` abort of a bad grid index. -/
def hruValue (d_flt : List Val) (v : GMVar) (rows : List WRow) : Option Val :=
  let tw := rows.map WRow.w
  let tgid := rows.map WRow.grid_id
  match v with
  | GMVar.tmax =>
      (gather d_flt tgid).map fun d =>
        getaverage (d.map (Option.map fun q => q - 2735 / 10)) tw
  | GMVar.tmin =>
      (gather d_flt tgid).map fun d =>
        getaverage (d.map (Option.map fun q => q - 2735 / 10)) tw
  | _ => (gather d_flt tgid).map fun d => getaverage d tw

/-- Per-variable unit-conversion offset, the parameterized form of the
hard-wired subtractions of `etl.py` lines 344 and 346: 273.5 for the two
temperature variables, 0 for every other variable. -/
def varOffset : GMVar → ℚ
  | GMVar.tmax => 2735 / 10
  | GMVar.tmin => 2735 / 10
  | GMVar.ppt => 0
  | GMVar.rhmax => 0
  | GMVar.rhmin => 0
  | GMVar.ws => 0
  | GMVar.srad => 0

/-- Effectful map over a list in the `Option` monad: the first `none`
(a raised exception) aborts the whole traversal. -/
def omapM {α β : Type} (f : α → Option β) : List α → Option (List β)
  | [] => some []
  | x :: xs => (f x).bind fun b => (omapM f xs).map fun bs => b :: bs

/-- The day/hru/variable loop of `run_weights` (`etl.py` lines 306-374),
with the external dataset abstracted as, per variable, the list of its
per-day flattened slices (`self.ds[...].values[day].flatten(order='K')`).
For each day and each hru id the group lookup `get_group` runs first
(`KeyError` aborts the run, modeled by `none`), then each configured
variable's slice is fetched (`IndexError` on a missing day aborts) and
`hruValue` is computed.  The result collects, per day and per hru, the
per-variable aggregated values that the code stores into the `np_*`
arrays. -/
def run_weights (vars : List GMVar) (grid : GMVar → List (List Val))
    (table : List WRow) (index : List ℤ) (numdays : ℕ) :
    Option (List (List (List (GMVar × Val)))) :=
  omapM (fun day =>
    omapM (fun hid =>
      match get_group table hid with
      | none => none
      | some rows =>
          omapM (fun v =>
            ((grid v).get? day).bind fun slice =>
              (hruValue slice v rows).map fun x => (v, x)) vars)
      index)
    (List.range numdays)

/-- The day-extent comparison of `initialize` (`etl.py` lines 259-270): the
retrieved `dayshape` is compared with the expected `numdays` and the method
returns the Boolean outcome (`True`/`False`); no exception is raised and the
`lat`/`lon` extents are recorded but never compared to expected values. -/
def init_dims_ok (dayshape numdays : ℕ) : Bool :=
  dayshape == numdays

/-- Units metadata written by `finalize` for `tmax` (`etl.py` line 432). -/
def tmax_units : String := "degree_Celsius"

/-- Units metadata written by `finalize` for `tmin` (`etl.py` line 440). -/
def tmin_units : String := "degree_Celsius"

/-- Concrete dataset with three days of data for `ppt` (one grid cell per
day), used to exercise a day-extent mismatch against `numdays = 2`. -/
def gridA : GMVar → List (List Val) := fun v =>
  match v with
  | GMVar.ppt => [[some 1], [some 2], [some 3]]
  | _ => []

/-- The same dataset truncated to two days. -/
def gridB : GMVar → List (List Val) := fun v =>
  match v with
  | GMVar.ppt => [[some 1], [some 2]]
  | _ => []

/-- A weights-file row with the negative weight -0.1 that the spec says the
build must reject. -/
def negRow : WRow := ⟨1, 100, -(1 / 10)⟩

/-! ## Helper lemmas -/

theorem nansum_nil : nansum [] = some 0 := rfl

theorem nansum_cons_none (l : List Val) : nansum (none :: l) = none := rfl

theorem nansum_cons_some (a : ℚ) (l : List Val) :
    nansum (some a :: l) = (nansum l).map fun b => a + b := rfl

theorem wprods_nil_right (d : List Val) : wprods d [] = [] := by
  cases d <;> rfl

theorem wprods_cons (x : Val) (d : List Val) (a : ℚ) (w : List ℚ) :
    wprods (x :: d) (a :: w) = (x.map fun v => v * a) :: wprods d w := rfl

theorem maskedPairs_nil_right (d : List Val) : maskedPairs d [] = [] := by
  cases d <;> rfl

theorem maskedPairs_cons_none (d : List Val) (a : ℚ) (w : List ℚ) :
    maskedPairs (none :: d) (a :: w) = maskedPairs d w := rfl

theorem maskedPairs_cons_some (v : ℚ) (d : List Val) (a : ℚ) (w : List ℚ) :
    maskedPairs (some v :: d) (a :: w) = (v, a) :: maskedPairs d w := rfl

theorem nansum_eq (l : List Val) :
    nansum l = if none ∈ l then none else some (l.filterMap id).sum := by
  induction l with
  | nil => simp [nansum]
  | cons x xs ih =>
    cases x with
    | none => simp [nansum_cons_none]
    | some a =>
      rw [nansum_cons_some, ih]
      by_cases h : none ∈ xs
      · simp [h]
      · simp [h]

theorem nansum_perm {l₁ l₂ : List Val} (h : l₁.Perm l₂) : nansum l₁ = nansum l₂ := by
  rw [nansum_eq, nansum_eq]
  by_cases hm : none ∈ l₁
  · rw [if_pos hm, if_pos (h.mem_iff.mp hm)]
  · rw [if_neg hm, if_neg fun hc => hm (h.mem_iff.mpr hc), (h.filterMap id).sum_eq]

theorem nansum_wprods_of_noNaN (d : List Val) :
    ∀ w : List ℚ, (∀ x ∈ d, x ≠ none) →
      nansum (wprods d w) = some (((d.zip w).map fun p => p.1.getD 0 * p.2).sum) := by
  induction d with
  | nil => intro w _; rfl
  | cons x xs ih =>
    intro w h
    cases w with
    | nil => rfl
    | cons a as =>
      obtain ⟨v, rfl⟩ := Option.ne_none_iff_exists'.mp (h x (List.mem_cons_self x xs))
      rw [wprods_cons, Option.map_some', nansum_cons_some,
        ih as fun y hy => h y (List.mem_cons_of_mem _ hy),
        List.zip_cons_cons, List.map_cons, List.sum_cons, Option.map_some']
      rfl

theorem nansum_wprods_of_mem_none (d : List Val) :
    ∀ w : List ℚ, d.length = w.length → none ∈ d → nansum (wprods d w) = none := by
  induction d with
  | nil => intro w _ h; simp at h
  | cons x xs ih =>
    intro w hlen hmem
    cases w with
    | nil => simp at hlen
    | cons a as =>
      rcases List.mem_cons.mp hmem with h1 | h1
      · rw [← h1, wprods_cons, Option.map_none', nansum_cons_none]
      · cases x with
        | none => rw [wprods_cons, Option.map_none', nansum_cons_none]
        | some v =>
          rw [wprods_cons, Option.map_some', nansum_cons_some,
            ih as (by simpa using hlen) h1, Option.map_none']

theorem maskedPairs_of_noNaN (d : List Val) :
    ∀ w : List ℚ, (∀ x ∈ d, x ≠ none) →
      maskedPairs d w = (d.zip w).map fun p => (p.1.getD 0, p.2) := by
  induction d with
  | nil => intro w _; rfl
  | cons x xs ih =>
    intro w h
    cases w with
    | nil => rfl
    | cons a as =>
      obtain ⟨v, rfl⟩ := Option.ne_none_iff_exists'.mp (h x (List.mem_cons_self x xs))
      rw [maskedPairs_cons_some, ih as fun y hy => h y (List.mem_cons_of_mem _ hy),
        List.zip_cons_cons, List.map_cons]
      rfl

theorem maskedPairs_of_allNaN (d : List Val) :
    ∀ w : List ℚ, (∀ x ∈ d, x = none) → maskedPairs d w = [] := by
  induction d with
  | nil => intro w _; rfl
  | cons x xs ih =>
    intro w h
    cases w with
    | nil => rfl
    | cons a as =>
      have hx : x = none := h x (List.mem_cons_self x xs)
      rw [hx, maskedPairs_cons_none]
      exact ih as fun y hy => h y (List.mem_cons_of_mem _ hy)

theorem map_opt_sub_zero (d : List Val) :
    d.map (Option.map fun q => q - (0 : ℚ)) = d := by
  induction d with
  | nil => rfl
  | cons x xs ih => cases x <;> simp [ih]

theorem omapM_eq_none {α β : Type} (f : α → Option β) :
    ∀ (l : List α) (x : α), x ∈ l → f x = none → omapM f l = none := by
  intro l
  induction l with
  | nil => intro x hx; simp at hx
  | cons y ys ih =>
    intro x hx hfx
    rcases List.mem_cons.mp hx with rfl | h
    · rw [omapM, hfx]; rfl
    · cases hfy : f y with
      | none => rw [omapM, hfy]; rfl
      | some b => rw [omapM, hfy, ih x h hfx]; rfl

theorem omapM_congr {α β : Type} {f g : α → Option β} :
    ∀ l : List α, (∀ x ∈ l, f x = g x) → omapM f l = omapM g l := by
  intro l
  induction l with
  | nil => intro _; rfl
  | cons y ys ih =>
    intro h
    rw [omapM, omapM, h y (List.mem_cons_self y ys),
      ih fun x hx => h x (List.mem_cons_of_mem _ hx)]

/-! ## Claim theorems -/

/-- C1, counterexample: the `getaverage` used by the day loop does not
exclude NaN cell values.  On cell values `[NaN, 10]` with weights `[1, 1]`
the claim predicts the masked weighted mean `10 * 1 / 1`; the code returns
NaN. -/
theorem getaverage_nan_cex :
    getaverage [none, some 10] [(1 : ℚ), 1] = none ∧
      (none : Val) ≠ some ((10 * 1 : ℚ) / 1) := by
  refine ⟨by norm_num [getaverage, nansum, wprods], by simp⟩

/-- C1, amended: only the helper `np_get_wval` excludes NaN cell values
from the weighted average (a NaN entry contributes nothing, whatever its
weight); the `getaverage` actually called in the day loop propagates any
NaN cell value into a NaN result whenever the weight total is nonzero. -/
theorem nan_handling_corrected :
    (∀ (d : List Val) (w : List ℚ) (wt : ℚ),
        np_get_wval (none :: d) (wt :: w) = np_get_wval d w) ∧
    (∀ (d : List Val) (w : List ℚ), d.length = w.length → none ∈ d →
        w.sum ≠ 0 → getaverage d w = none) := by
  constructor
  · intro d w wt
    simp only [np_get_wval, maskedPairs_cons_none]
  · intro d w hlen hmem hw
    simp only [getaverage, if_neg hw, nansum_wprods_of_mem_none d w hlen hmem,
      Option.map_none']

/-- C1, witness for the amended statement at concrete inputs. -/
theorem nan_handling_corrected_witness :
    np_get_wval [none, some 5] [(2 : ℚ), 1] = np_get_wval [some 5] [(1 : ℚ)] ∧
      getaverage [none, some 10] [(1 : ℚ), 1] = none :=
  ⟨nan_handling_corrected.1 [some 5] [1] 2,
   nan_handling_corrected.2 [none, some 10] [1, 1] rfl (by simp)
     (by norm_num [List.sum_cons, List.sum_nil])⟩

/-- C2, counterexample: for the all-NaN input `[NaN]` with weight total 1,
the day-loop aggregation returns NaN, not the fill sentinel. -/
theorem allnan_fill_cex :
    getaverage [none] [(1 : ℚ)] = none ∧ (none : Val) ≠ some fillF8 := by
  refine ⟨by norm_num [getaverage, nansum, wprods], by simp⟩

/-- C2, amended: `np_get_wval` returns the f8 fill sentinel on all-NaN
input; the day-loop `getaverage` returns the fill sentinel exactly when the
weight total is zero (including empty inputs) and returns NaN on all-NaN
input with nonzero weight total; the sentinel is nonzero. -/
theorem fill_sentinel_corrected :
    (∀ (d : List Val) (w : List ℚ), (∀ x ∈ d, x = none) →
        np_get_wval d w = fillF8) ∧
    (∀ (d : List Val) (w : List ℚ), w.sum = 0 → getaverage d w = some fillF8) ∧
    (∀ (d : List Val) (w : List ℚ), d.length = w.length → w.sum ≠ 0 →
        (∀ x ∈ d, x = none) → getaverage d w = none) ∧
    fillF8 ≠ 0 := by
  refine ⟨?_, ?_, ?_, by norm_num [fillF8]⟩
  · intro d w h
    simp [np_get_wval, maskedPairs_of_allNaN d w h]
  · intro d w h
    simp only [getaverage, if_pos h]
  · intro d w hlen hw h
    cases d with
    | nil =>
      cases w with
      | nil => exact absurd List.sum_nil hw
      | cons a as => simp at hlen
    | cons x xs =>
      have hmem : none ∈ x :: xs :=
        List.mem_cons.mpr (Or.inl (h x (List.mem_cons_self x xs)).symm)
      simp only [getaverage, if_neg hw,
        nansum_wprods_of_mem_none _ _ hlen hmem, Option.map_none']

/-- C2, witness for the amended statement at concrete inputs. -/
theorem fill_sentinel_corrected_witness :
    np_get_wval [none] [(1 : ℚ)] = fillF8 ∧
      getaverage [some 3] [(0 : ℚ)] = some fillF8 ∧
      getaverage [none] [(1 : ℚ)] = none :=
  ⟨fill_sentinel_corrected.1 [none] [1] (by simp),
   fill_sentinel_corrected.2.1 [some 3] [0] (by norm_num [List.sum_cons, List.sum_nil]),
   fill_sentinel_corrected.2.2.1 [none] [1] rfl
     (by norm_num [List.sum_cons, List.sum_nil]) (by simp)⟩

/-- C3, counterexample: the weight-table build does not fail on a row with
the negative weight -0.1; it groups it like any other row. -/
theorem weights_validation_cex :
    run_weights_read [negRow] ≠ Except.error WeightsError.MalformedWeightsError ∧
      run_weights_read [negRow] = Except.ok [(1, [negRow])] ∧ negRow.w < 0 := by
  refine ⟨?_, rfl, by norm_num [negRow]⟩
  intro h
  rw [show run_weights_read [negRow] = Except.ok [(1, [negRow])] from rfl] at h
  exact Except.noConfusion h

/-- C3, amended: the build performs no validation and always succeeds:
every input row (whatever the sign of its weight) lands in the group of its
unit id in the resulting grouping. -/
theorem weights_build_corrected (rows : List WRow) (r : WRow) (hr : r ∈ rows) :
    ∃ g, run_weights_read rows = Except.ok g ∧
      (r.hru_id, rows.filter fun x => x.hru_id == r.hru_id) ∈ g ∧
      r ∈ rows.filter fun x => x.hru_id == r.hru_id := by
  refine ⟨buildGroups rows, rfl, ?_, ?_⟩
  · exact List.mem_map.mpr ⟨r.hru_id,
      List.mem_dedup.mpr (List.mem_map.mpr ⟨r, hr, rfl⟩), rfl⟩
  · exact List.mem_filter.mpr ⟨hr, by simp⟩

/-- C3, witness: the amended statement applied to the -0.1 weight row. -/
theorem weights_build_corrected_witness :
    ∃ g, run_weights_read [negRow] = Except.ok g ∧
      (negRow.hru_id, [negRow].filter fun x => x.hru_id == negRow.hru_id) ∈ g ∧
      negRow ∈ [negRow].filter fun x => x.hru_id == negRow.hru_id :=
  weights_build_corrected [negRow] negRow (List.mem_singleton.mpr rfl)

/-- C4, counterexample: with a retrieved day extent of 3 against an
expected `numdays` of 2, `initialize` merely returns `false` (no exception)
and the aggregation run still proceeds and computes per-unit values. -/
theorem dims_check_cex :
    init_dims_ok 3 2 = false ∧
      run_weights [GMVar.ppt] gridA [⟨7, 0, 1⟩] [(7 : ℤ)] 2 =
        some [[[(GMVar.ppt, some 1)]], [[(GMVar.ppt, some 2)]]] := by
  refine ⟨rfl, ?_⟩
  have e1 : getaverage [some 1] [(1 : ℚ)] = some 1 := by
    norm_num [getaverage, nansum, wprods]
  have e2 : getaverage [some 2] [(1 : ℚ)] = some 2 := by
    norm_num [getaverage, nansum, wprods]
  show some [[[(GMVar.ppt, getaverage [some 1] [(1 : ℚ)])]],
      [[(GMVar.ppt, getaverage [some 2] [(1 : ℚ)])]]] = _
  rw [e1, e2]

/-- C4, amended: on a day-extent mismatch `initialize` returns `False`
rather than raising, and `run_weights` performs no dimension check at all:
its result depends only on the day slices it actually indexes, so a grid
with extra (mismatched) days aggregates exactly like the matching grid. -/
theorem dims_check_corrected :
    (∀ dayshape numdays : ℕ, dayshape ≠ numdays →
        init_dims_ok dayshape numdays = false) ∧
    (∀ (vars : List GMVar) (g₁ g₂ : GMVar → List (List Val)) (table : List WRow)
        (index : List ℤ) (n : ℕ),
        (∀ (v : GMVar) (day : ℕ), day < n → (g₁ v).get? day = (g₂ v).get? day) →
        run_weights vars g₁ table index n = run_weights vars g₂ table index n) := by
  constructor
  · intro dayshape numdays h
    exact beq_eq_false_iff_ne.mpr h
  · intro vars g₁ g₂ table index n h
    simp only [run_weights]
    apply omapM_congr
    intro day hday
    apply omapM_congr
    intro hid _
    cases get_group table hid with
    | none => rfl
    | some rows =>
      apply omapM_congr
      intro v _
      rw [h v day (List.mem_range.mp hday)]

/-- C4, witness: the amended statement at the concrete mismatched pair of
datasets (three retrieved days against two expected). -/
theorem dims_check_corrected_witness :
    init_dims_ok 3 2 = false ∧
      run_weights [GMVar.ppt] gridA [⟨7, 0, 1⟩] [(7 : ℤ)] 2 =
        run_weights [GMVar.ppt] gridB [⟨7, 0, 1⟩] [(7 : ℤ)] 2 :=
  ⟨dims_check_corrected.1 3 2 (by decide),
   dims_check_corrected.2 [GMVar.ppt] gridA gridB [⟨7, 0, 1⟩] [(7 : ℤ)] 2 (by
     intro v day hday
     interval_cases day <;> cases v <;> rfl)⟩

/-- C5: the inner-loop computation factors through a per-variable offset:
for every variable it equals gathering, subtracting `varOffset v` from each
cell value, and weighting, where the offset is 273.5 for `tmax` and `tmin`
and 0 for the five other variables (aggregated on raw values). -/
theorem offset_parameterized :
    (∀ (v : GMVar) (d_flt : List Val) (rows : List WRow),
        hruValue d_flt v rows = (gather d_flt (rows.map WRow.grid_id)).map fun d =>
          getaverage (d.map (Option.map fun q => q - varOffset v)) (rows.map WRow.w)) ∧
    varOffset GMVar.tmax = 2735 / 10 ∧ varOffset GMVar.tmin = 2735 / 10 ∧
    varOffset GMVar.ppt = 0 ∧ varOffset GMVar.rhmax = 0 ∧ varOffset GMVar.rhmin = 0 ∧
    varOffset GMVar.ws = 0 ∧ varOffset GMVar.srad = 0 := by
  refine ⟨?_, rfl, rfl, rfl, rfl, rfl, rfl, rfl⟩
  intro v d_flt rows
  cases v <;> simp only [hruValue, varOffset, map_opt_sub_zero]

/-- C6: for a NaN-free weight group with positive weight total, the
day-loop aggregation is the standard weighted mean
`sum(value_i * weight_i) / sum(weight_i)`. -/
theorem getaverage_weighted_mean (d : List Val) (w : List ℚ)
    (_hlen : d.length = w.length) (hw : 0 < w.sum) (hnn : ∀ x ∈ d, x ≠ none) :
    getaverage d w =
      some ((((d.zip w).map fun p => p.1.getD 0 * p.2).sum) / w.sum) := by
  simp only [getaverage, if_neg hw.ne', nansum_wprods_of_noNaN d w hnn,
    Option.map_some']

/-- C6, witness: values [10, 20] with weights [1, 3] average to 17.5. -/
theorem getaverage_weighted_mean_witness :
    getaverage [some 10, some 20] [(1 : ℚ), 3] = some (35 / 2) := by
  rw [getaverage_weighted_mean [some 10, some 20] [(1 : ℚ), 3] rfl
    (by norm_num [List.sum_cons, List.sum_nil]) (by simp)]
  norm_num [List.zip_cons_cons, List.sum_cons, List.sum_nil]

/-- C7: the aggregation is invariant under any permutation of the
(value, weight) pairs, as an exact equation over the embedded (exact
rational) arithmetic. -/
theorem getaverage_perm_invariant (ps qs : List (Val × ℚ)) (h : ps.Perm qs) :
    getaverage (ps.map Prod.fst) (ps.map Prod.snd) =
      getaverage (qs.map Prod.fst) (qs.map Prod.snd) := by
  have hsum : (ps.map Prod.snd).sum = (qs.map Prod.snd).sum :=
    (h.map Prod.snd).sum_eq
  have hn : nansum (wprods (ps.map Prod.fst) (ps.map Prod.snd)) =
      nansum (wprods (qs.map Prod.fst) (qs.map Prod.snd)) := by
    simp only [wprods, List.zip_map']
    exact nansum_perm ((h.map fun a => (a.1, a.2)).map fun p => p.1.map fun v => v * p.2)
  simp only [getaverage, hsum, hn]

/-- C7, witness: swapping the two pairs (10, 1) and (20, 3) leaves the
aggregation unchanged. -/
theorem getaverage_perm_invariant_witness :
    getaverage ([((some 10 : Val), (1 : ℚ)), (some 20, 3)].map Prod.fst)
        ([((some 10 : Val), (1 : ℚ)), (some 20, 3)].map Prod.snd) =
      getaverage ([((some 20 : Val), (3 : ℚ)), (some 10, 1)].map Prod.fst)
        ([((some 20 : Val), (3 : ℚ)), (some 10, 1)].map Prod.snd) :=
  getaverage_perm_invariant _ _ (List.Perm.swap _ _ _)

/-- C8, counterexample: on the input `[NaN]` with weight `[0]` (a NaN cell
value present) the two aggregation functions agree — both return the f8
fill value — so they do not differ on every NaN-containing input. -/
theorem agg_agreement_cex :
    (none : Val) ∈ ([none] : List Val) ∧
      getaverage [none] [(0 : ℚ)] = some (np_get_wval [none] [(0 : ℚ)]) := by
  refine ⟨List.mem_singleton.mpr rfl, ?_⟩
  have h1 : getaverage [none] [(0 : ℚ)] = some fillF8 := by
    norm_num [getaverage]
  have h2 : np_get_wval [none] [(0 : ℚ)] = fillF8 := by
    norm_num [np_get_wval, maskedPairs, List.filterMap_cons]
  rw [h1, h2]

/-- C8, amended: the two aggregations agree on every NaN-free input with
nonzero weight total; on an input containing a NaN they differ whenever the
weight total is nonzero (the day-loop one yields NaN, the helper a non-NaN
double), the zero-weight-total case being the exception where both return
the fill value. -/
theorem agg_agreement_corrected :
    (∀ (d : List Val) (w : List ℚ), d.length = w.length → (∀ x ∈ d, x ≠ none) →
        w.sum ≠ 0 → getaverage d w = some (np_get_wval d w)) ∧
    (∀ (d : List Val) (w : List ℚ), d.length = w.length → none ∈ d →
        w.sum ≠ 0 →
        getaverage d w = none ∧ getaverage d w ≠ some (np_get_wval d w)) := by
  constructor
  · intro d w hlen hnn hw
    have hmp := maskedPairs_of_noNaN d w hnn
    have hsnd : (maskedPairs d w).map Prod.snd = w := by
      rw [hmp, List.map_map]
      exact List.map_snd_zip d w (le_of_eq hlen.symm)
    have hnum : ((maskedPairs d w).map fun p => p.1 * p.2) =
        (d.zip w).map fun p => p.1.getD 0 * p.2 := by
      rw [hmp, List.map_map]
      rfl
    simp only [getaverage, np_get_wval, hsnd, hnum, if_neg hw,
      nansum_wprods_of_noNaN d w hnn, Option.map_some']
  · intro d w hlen hmem hw
    have hnone : getaverage d w = none := by
      simp only [getaverage, if_neg hw,
        nansum_wprods_of_mem_none d w hlen hmem, Option.map_none']
    refine ⟨hnone, ?_⟩
    rw [hnone]
    exact fun hc => Option.noConfusion hc

/-- C8, witness for the amended statement at concrete inputs. -/
theorem agg_agreement_corrected_witness :
    getaverage [some 10, some 20] [(1 : ℚ), 3] =
        some (np_get_wval [some 10, some 20] [(1 : ℚ), 3]) ∧
      getaverage [none, some 4] [(1 : ℚ), 1] = none :=
  ⟨agg_agreement_corrected.1 [some 10, some 20] [(1 : ℚ), 3] rfl (by simp)
     (by norm_num [List.sum_cons, List.sum_nil]),
   (agg_agreement_corrected.2 [none, some 4] [(1 : ℚ), 1] rfl (by simp)
     (by norm_num [List.sum_cons, List.sum_nil])).1⟩

/-- C9: the offset subtracted from `tmax`/`tmin` cell values is exactly
273.5 — a raw value of 273.5 aggregates to 0 — while the output metadata
declares `degree_Celsius`, and 273.5 is not the Kelvin-to-Celsius constant
273.15. -/
theorem temp_offset_is_273_5 :
    hruValue [some (2735 / 10)] GMVar.tmax [⟨1, 0, 1⟩] = some (some 0) ∧
      hruValue [some (2735 / 10)] GMVar.tmin [⟨1, 0, 1⟩] = some (some 0) ∧
      tmax_units = "degree_Celsius" ∧ tmin_units = "degree_Celsius" ∧
      (2735 / 10 : ℚ) ≠ 27315 / 100 := by
  have e : getaverage [some (2735 / 10 - 2735 / 10)] [(1 : ℚ)] = some 0 := by
    norm_num [getaverage, nansum, wprods]
  refine ⟨?_, ?_, rfl, rfl, by norm_num⟩
  · show some (getaverage ([some (2735 / 10)].map (Option.map fun q => q - 2735 / 10))
        [(1 : ℚ)]) = _
    simp only [List.map_cons, List.map_nil, Option.map_some']
    rw [e]
  · show some (getaverage ([some (2735 / 10)].map (Option.map fun q => q - 2735 / 10))
        [(1 : ℚ)]) = _
    simp only [List.map_cons, List.map_nil, Option.map_some']
    rw [e]

/-- C10: if any hru id of the unit collection has no group in the weight
table, the `get_group` lookup raises (modeled by `none`) and the whole
aggregation run aborts with no per-unit values, rather than producing a
fill value for that unit. -/
theorem missing_group_aborts (vars : List GMVar) (grid : GMVar → List (List Val))
    (table : List WRow) (index : List ℤ) (numdays : ℕ) (hid : ℤ)
    (h1 : hid ∈ index) (h2 : get_group table hid = none) (h3 : 0 < numdays) :
    run_weights vars grid table index numdays = none := by
  simp only [run_weights]
  apply omapM_eq_none _ _ 0 (List.mem_range.mpr h3)
  apply omapM_eq_none _ _ hid h1
  rw [h2]

/-- C10, witness: a run over one day and one hru id absent from an empty
weight table aborts. -/
theorem missing_group_aborts_witness :
    run_weights [] (fun _ => []) [] [(5 : ℤ)] 1 = none :=
  missing_group_aborts [] (fun _ => []) [] [(5 : ℤ)] 1 5
    (List.mem_singleton.mpr rfl) rfl (by decide)
